import Mathlib

/-!
Verification of the change-detection core (`src/kmeans.py`) and the PCA helper
(`src/simple_pca.py`) of the pythonic-experiments repository.

Images are shallow-embedded as lists of rows.  Integer pixel buffers
(`numpy int16` after the `astype` casts) are modelled as `Int` with the
16-bit wrap made explicit; the floating-point buffers produced by
`np.zeros`, `np.mean`, `np.dot` and the PCA/k-means primitives are modelled
as exact rationals (`ℚ`), which captures the dataflow of the code while
leaving float rounding out of scope.

External library routines (PIL resizing, sklearn PCA and KMeans) are
treated as trusted primitives, passed in as parameters of the pipeline,
with their contracts (output shapes, one label per sample) stated as
hypotheses where a theorem needs them.  `cv2.erode` is modelled from the
spec's stated contract (min-filter with the given kernel, zero padding).
-/

/-! ## Basic array helpers -/

/-- Entry of a rational matrix at row `r`, column `c` (default 0). -/
def getQ (m : List (List ℚ)) (r c : Nat) : ℚ :=
  (m.getD r []).getD c 0

/-- Entry of an integer matrix at row `r`, column `c` (default 0). -/
def getZ (m : List (List Int)) (r c : Nat) : Int :=
  (m.getD r []).getD c 0

/-- Entry of a natural-number matrix at row `r`, column `c` (default 0). -/
def getN (m : List (List Nat)) (r c : Nat) : Nat :=
  (m.getD r []).getD c 0

/-- Entry of a natural-number matrix at possibly negative indices:
out-of-bounds reads as 0 (background). -/
def getNI (m : List (List Nat)) (r c : Int) : Nat :=
  if 0 ≤ r ∧ 0 ≤ c then (m.getD r.toNat []).getD c.toNat 0 else 0

/-- Pointwise sum of two vectors (`numpy` addition of same-length vectors). -/
def vecAdd (a b : List ℚ) : List ℚ := List.zipWith (· + ·) a b

/-- Pointwise difference of two vectors. -/
def vecSub (a b : List ℚ) : List ℚ := List.zipWith (· - ·) a b

/-- Dot product of two vectors. -/
def dotQ (a b : List ℚ) : ℚ := (List.zipWith (· * ·) a b).sum

/-- The `c`-th column of a matrix (entry `c` of every row, default 0). -/
def colQ (b : List (List ℚ)) (c : Nat) : List ℚ :=
  b.map (fun row => row.getD c 0)

/-- `np.dot` for a list of row vectors against a matrix `b`:
entry `(p, c)` is the dot product of row `p` with column `c` of `b`. -/
def matMulQ (a b : List (List ℚ)) : List (List ℚ) :=
  a.map (fun r => (List.range (b.headD []).length).map (fun c => dotQ r (colQ b c)))

/-- Row-major flattening of the 5×5 window `m[r:r+5, c:c+5]`
(`block.ravel()` / `block.flatten()` on a numpy slice). -/
def flattenBlock (m : List (List ℚ)) (r c : Nat) : List ℚ :=
  (((m.drop r).take 5).map (fun row => (row.drop c).take 5)).flatten

/-! ## The int16 cast and the difference image (`astype(np.int16)`, `abs(pre - post)`) -/

/-- `astype(np.int16)`: reduce an integer to the signed 16-bit range by
wrapping modulo 2^16. -/
def wrap16 (x : Int) : Int := (x + 32768) % 65536 - 32768

/-- `np.abs` on an int16 value: the absolute value, stored back into int16
(so `|-32768|` wraps back to `-32768`). -/
def npAbs16 (x : Int) : Int := wrap16 |x|

/-- One pixel of `abs(image_pre - image_post)` after both operands were cast
with `astype(np.int16)`; the subtraction itself is int16 arithmetic. -/
def diffPixel (a b : Int) : Int := npAbs16 (wrap16 (wrap16 a - wrap16 b))

/-- The difference image `abs(image_pre - image_post)` of two int pixel
buffers, both cast to int16 first. -/
def diffImage (a b : List (List Int)) : List (List Int) :=
  List.zipWith (List.zipWith diffPixel) a b

/-! ## `find_vector_set` (src/kmeans.py lines 11-31) -/

/-- The successive values taken by a Python `while`-loop counter that starts
at `j`, steps by 5, and runs while it is below `n`. -/
def fivesFrom (j n : Nat) : List Nat :=
  (List.range ((n - j + 4) / 5)).map (fun t => j + 5 * t)

/-- Inner `while k < new_size[1]` loop of `find_vector_set`: every disjoint
block of image row-band `j` is flattened and written into row `i` of the
vector set (each write overwrites the previous one). -/
def vsKLoop (diff : List (List ℚ)) (n1 i j : Nat) (vs : List (List ℚ)) :
    List (List ℚ) :=
  (fivesFrom 0 n1).foldl (fun a k => a.set i (flattenBlock diff j k)) vs

/-- Middle `while j < new_size[0]` loop of `find_vector_set`.  The loop
counter `j` is part of the state: the source never resets it between
iterations of the outer loop. -/
def vsJLoop (diff : List (List ℚ)) (n0 n1 i : Nat) (s : Nat × List (List ℚ)) :
    Nat × List (List ℚ) :=
  (fivesFrom s.1 n0).foldl (fun a j => (j + 5, vsKLoop diff n1 i j a.2)) s

/-- Arithmetic sum of a list of 25-vectors (`np.sum` along axis 0 of an
`(N, 25)` array). -/
def sumVecs (vs : List (List ℚ)) : List ℚ :=
  vs.foldr vecAdd (List.replicate 25 0)

/-- `np.mean(vector_set, axis=0)`: coordinatewise sum divided by the number
of rows. -/
def meanVec (vs : List (List ℚ)) : List ℚ :=
  (sumVecs vs).map (fun x => x / (vs.length : ℚ))

/-- `find_vector_set(diff_image, new_size)`: allocates
`np.zeros((new_size[0]*new_size[1]/25, 25))`, runs the three nested `while`
loops of the source (outer counter `i` over the rows of the vector set,
inner counters `j`, `k` over 5×5 blocks, with `j` carried across outer
iterations exactly as in the source), then subtracts the per-coordinate
mean from every row.  Returns `(vector_set, mean_vec)`. -/
def find_vector_set (diff : List (List ℚ)) (n0 n1 : Nat) :
    List (List ℚ) × List ℚ :=
  let N := n0 * n1 / 25
  let init := List.replicate N (List.replicate 25 (0 : ℚ))
  let s := (List.range N).foldl (fun st i => vsJLoop diff n0 n1 i st) (0, init)
  let vector_set := s.2
  let mean_vec := meanVec vector_set
  (vector_set.map (fun v => vecSub v mean_vec), mean_vec)

/-! ## `find_FVS` (src/kmeans.py lines 34-52) -/

/-- The interior-pixel neighbourhood list of `find_FVS`: for
`i` from 2 while `i < new[0] - 2` (outer) and `j` from 2 while
`j < new[1] - 2` (inner), the flattened window `diff[i-2:i+3, j-2:j+3]`. -/
def interiorFeatures (diff : List (List ℚ)) (n0 n1 : Nat) : List (List ℚ) :=
  (List.range' 2 (n0 - 4)).flatMap
    (fun i => (List.range' 2 (n1 - 4)).map (fun j => flattenBlock diff (i - 2) (j - 2)))

/-- `find_FVS(EVS, diff_image, mean_vec, new)`: collects the interior
neighbourhood vectors, multiplies the list with `EVS` via `np.dot`
(each feature dotted against each **column** of `EVS`), and subtracts
`mean_vec` from every resulting row. -/
def find_FVS (EVS : List (List ℚ)) (diff : List (List ℚ)) (mean_vec : List ℚ)
    (n0 n1 : Nat) : List (List ℚ) :=
  (matMulQ (interiorFeatures diff n0 n1) EVS).map (fun r => vecSub r mean_vec)

/-! ## `clustering` (src/kmeans.py lines 55-65) -/

/-- Iteration order of the keys of `collections.Counter(output)`: each label
in order of its first occurrence in `output`. -/
def firstOccs : List Nat → List Nat
  | [] => []
  | x :: xs => x :: (firstOccs xs).filter (fun y => y != x)

/-- `min(count, key=count.get)`: scan the Counter keys in insertion order,
keeping the current key unless a later key has a strictly smaller count
(so ties keep the earliest key); `none` when the sequence is empty, where
Python's `min` raises `ValueError`. -/
def pyMinByCount (l : List Nat) : Option Nat :=
  match firstOccs l with
  | [] => none
  | x :: xs => some (xs.foldl (fun best y => if l.count y < l.count best then y else best) x)

/-- Split a flat list into `d0` rows of `d1` entries each. -/
def listChunks {α : Type} (l : List α) (d0 d1 : Nat) : List (List α) :=
  (List.range d0).map (fun r => (l.drop (r * d1)).take d1)

/-- `np.reshape(l, (d0, d1))`: fails (ValueError) when a target dimension is
negative or the element count does not match. -/
def npReshape2 {α : Type} (l : List α) (d0 d1 : Int) : Option (List (List α)) :=
  if 0 ≤ d0 ∧ 0 ≤ d1 ∧ (l.length : Int) = d0 * d1 then
    some (listChunks l d0.toNat d1.toNat)
  else none

/-- Error surfaced by the pipeline.  Modelled from the spec: the design in
the spec names the typed kinds `ShapeMismatch`, `DegenerateGeometry` and
`ClusteringFailure`; the source defines none of them, so the embedding also
carries `valueError`, an untyped Python library exception with its message.
-/
inductive PipeError : Type
  | shapeMismatch : PipeError
  | degenerateGeometry : PipeError
  | clusteringFailure : PipeError
  | valueError : String → PipeError
deriving DecidableEq, Repr

/-- `clustering(FVS, components, new)`: the k-means fit/predict pair is the
trusted primitive `kmeans_predict` (given the component count and the
feature vectors, it returns the converged labels); the function then takes
`min` of the label counter and reshapes the label sequence to
`(new[0]-4, new[1]-4)`. -/
def clustering (kmeans_predict : Nat → List (List ℚ) → List Nat)
    (FVS : List (List ℚ)) (components : Nat) (n0 n1 : Nat) :
    Except PipeError (Nat × List (List Nat)) :=
  let output := kmeans_predict components FVS
  match pyMinByCount output with
  | none => .error (.valueError "min() arg is an empty sequence")
  | some least_index =>
    match npReshape2 output ((n0 : Int) - 4) ((n1 : Int) - 4) with
    | none => .error (.valueError "cannot reshape array")
    | some change_map => .ok (least_index, change_map)

/-! ## Change-map construction, erosion, canvas write
  (src/kmeans.py lines 94-109) -/

/-- The two in-place passes
`change_map[change_map == least_index] = 255` followed by
`change_map[change_map != 255] = 0`. -/
def buildChangeMap (least_index : Nat) (grid : List (List Nat)) :
    List (List Nat) :=
  (grid.map (fun row => row.map (fun v => if v = least_index then 255 else v))).map
    (fun row => row.map (fun v => if v ≠ 255 then 0 else v))

/-- The fixed 5×5 structuring element of the source (plus-within-diamond). -/
def kernelK : List (List Nat) :=
  [[0, 0, 1, 0, 0], [0, 1, 1, 1, 0], [1, 1, 1, 1, 1], [0, 1, 1, 1, 0], [0, 0, 1, 0, 0]]

/-- The neighbourhood samples taken by erosion at pixel `(i, j)`: the image
values under every `1` of the kernel, anchored at the kernel centre, with
out-of-bounds reads as 0. -/
def erodeSamples (img kernel : List (List Nat)) (i j : Nat) : List Nat :=
  (List.range 5).flatMap (fun di =>
    (List.range 5).filterMap (fun dj =>
      if (kernel.getD di []).getD dj 0 = 1 then
        some (getNI img ((i : Int) + di - 2) ((j : Int) + dj - 2))
      else none))

/-- Modelled from the spec: `cv2.erode` is the trusted binary-erosion
primitive; per the spec it is the min-filter with the given structuring
element, zero padding at the borders, on uint8 data (so the neutral element
of the minimum is 255). -/
def erode (img kernel : List (List Nat)) : List (List Nat) :=
  (List.range img.length).map (fun i =>
    (List.range (img.headD []).length).map (fun j =>
      (erodeSamples img kernel i j).foldr min 255))

/-- Row index used when numpy broadcasts a source array into a larger slice:
an axis of size 1 is repeated, any other size is used directly. -/
def bcastIdx (srcLen idx : Nat) : Nat := if srcLen = 1 then 0 else idx

/-- The filled canvas: an `old_size × old_size` grid of zeros with `clean`
(broadcast if an axis has size 1) written into the slice
`[border : old_size-border, border : old_size-border]`, converted to uint8
(`% 256`). -/
def canvasGrid (old_size border : Nat) (clean : List (List Nat)) :
    List (List Nat) :=
  (List.range old_size).map (fun r =>
    (List.range old_size).map (fun c =>
      if border ≤ r ∧ r < old_size - border ∧ border ≤ c ∧ c < old_size - border then
        getN clean (bcastIdx clean.length (r - border))
          (bcastIdx (clean.headD []).length (c - border)) % 256
      else 0))

/-- The final canvas step of `find_PCAKmeans`:
`x = np.zeros((old_size, old_size))`,
`x[border:old_size-border, border:old_size-border] = cleanChangeMap`,
`return x.astype(np.uint8)`.  The slice assignment succeeds exactly when
each source dimension equals the slice dimension or is 1 (numpy
broadcasting); otherwise numpy raises a ValueError. -/
def canvasWrite (old_size : Nat) (clean : List (List Nat)) :
    Except PipeError (List (List Nat)) :=
  let border := (old_size - clean.length) / 2
  let t := old_size - border - border
  if (clean.length = t ∨ clean.length = 1) ∧
      ((clean.headD []).length = t ∨ (clean.headD []).length = 1) then
    .ok (canvasGrid old_size border clean)
  else .error (.valueError "could not broadcast input array")

/-! ## The full pipeline `find_PCAKmeans` (src/kmeans.py lines 69-109) -/

/-- The trusted external primitives consumed by `find_PCAKmeans`:
`resize` is the PIL resampling routine (called with the PIL size pair
`(width, height) = (new_size[0], new_size[1])`), `pca_components` is
`PCA().fit` followed by reading `pca.components_`, and `kmeans_predict` is
the KMeans fit/predict pair. -/
structure Primitives : Type where
  resize : List (List Int) → Nat × Nat → List (List Int)
  pca_components : List (List ℚ) → List (List ℚ)
  kmeans_predict : Nat → List (List ℚ) → List Nat

/-- `find_PCAKmeans(image_pre, image_post)`: the full pipeline of the
source.  `old_size = image_pre.shape[0]`; `new_size` floors both axes of
`image_pre.shape` to multiples of 5; both images are resized and cast to
int16; the absolute difference feeds `find_vector_set`, the PCA primitive,
`find_FVS` and `clustering` (with 3 components); the minority cluster is
painted 255, the map is eroded and written into the centred slice of an
`old_size × old_size` zero canvas. -/
def find_PCAKmeans (P : Primitives) (image_pre image_post : List (List Int)) :
    Except PipeError (List (List Nat)) :=
  let old_size := image_pre.length
  let n0 := image_pre.length / 5 * 5
  let n1 := (image_pre.headD []).length / 5 * 5
  let pre := P.resize image_pre (n0, n1)
  let post := P.resize image_post (n0, n1)
  let diff := diffImage pre post
  let diffQ := diff.map (fun row => row.map (fun z => (z : ℚ)))
  let vs := find_vector_set diffQ n0 n1
  let EVS := P.pca_components vs.1
  let FVS := find_FVS EVS diffQ vs.2 n0 n1
  match clustering P.kmeans_predict FVS 3 n0 n1 with
  | .error e => .error e
  | .ok (least_index, change_map) =>
    let cm := buildChangeMap least_index change_map
    let cleanChangeMap := erode cm kernelK
    canvasWrite old_size cleanChangeMap

/-- The module state of `src/kmeans.py`: the single module-level global
`tile_counter = 1`.  `find_PCAKmeans` neither reads nor writes it, which the
state-threaded wrapper makes explicit. -/
def find_PCAKmeansSt (P : Primitives) (tile_counter : Nat)
    (image_pre image_post : List (List Int)) :
    Except PipeError (List (List Nat)) × Nat :=
  (find_PCAKmeans P image_pre image_post, tile_counter)

/-! ## `run_pca` (src/simple_pca.py lines 5-15) -/

/-- `run_pca(n, data)` of `src/simple_pca.py`: the trusted primitive
`fit_inverse` models `PCA(n).fit_transform` followed by
`inverse_transform(...).astype(np.uint8)` (`none` when sklearn rejects the
arguments); the reconstruction is computed, bound to a local, and
discarded; the function returns `np.zeros((4, 4))`. -/
def run_pca (fit_inverse : Nat → List (List ℚ) → Option (List (List ℚ)))
    (n : Nat) (data : List (List ℚ)) : Option (List (List ℚ)) :=
  match fit_inverse n data with
  | some _ => some (List.replicate 4 (List.replicate 4 (0 : ℚ)))
  | none => none

/-! ## Concrete instances used by witnesses and counterexamples -/

/-- A concrete resampling routine satisfying the PIL shape contract for
every input: nearest-style crop/pad to the requested size (PIL size is
`(width, height)`, so the result has `size.2` rows of `size.1` entries). -/
def cropResize (img : List (List Int)) (size : Nat × Nat) : List (List Int) :=
  (List.range size.2).map (fun r => (List.range size.1).map (fun c => getZ img r c))

/-- The identity 25×25 matrix: a concrete orthonormal eigenbasis. -/
def identity25 : List (List ℚ) :=
  (List.range 25).map (fun r => (List.range 25).map (fun c => if r = c then 1 else 0))

/-- A concrete k-means primitive: every sample in cluster 0 (the outcome of
clustering identical feature vectors); one label per sample. -/
def kmZero (_components : Nat) (vs : List (List ℚ)) : List Nat :=
  List.replicate vs.length 0

/-- Concrete primitive bundle for evaluating the pipeline on closed inputs. -/
def Pconc : Primitives :=
  { resize := cropResize, pca_components := fun _ => identity25,
    kmeans_predict := kmZero }

/-- An all-zero square integer image of side `n`. -/
def zImg (n : Nat) : List (List Int) :=
  List.replicate n (List.replicate n (0 : Int))

/-- The 25-vector of zeros. -/
def zeros25 : List ℚ := List.replicate 25 0

/-- A 5×5 difference image with the distinct entries 0..24. -/
def diff5 : List (List ℚ) :=
  (List.range 5).map (fun i => (List.range 5).map (fun j => ((5 * i + j : Nat) : ℚ)))

/-- The orthonormal (permutation) basis sending coordinate 0 to 1, 1 to 2,
2 to 0, and fixing the rest: a non-symmetric eigenbasis. -/
def permE : List (List ℚ) :=
  (List.range 25).map (fun r => (List.range 25).map (fun c =>
    if (r = 0 ∧ c = 1) ∨ (r = 1 ∧ c = 2) ∨ (r = 2 ∧ c = 0) ∨ (3 ≤ r ∧ r = c)
    then 1 else 0))

/-- A 10×10 difference image whose four 5×5 blocks are the constants
1 (top-left), 2 (top-right), 3 (bottom-left), 4 (bottom-right). -/
def diff10 : List (List ℚ) :=
  (List.range 10).map (fun r => (List.range 10).map (fun c =>
    if r < 5 then (if c < 5 then (1 : ℚ) else 2) else (if c < 5 then 3 else 4)))

/-! ## Generic list lemmas -/

theorem getD_zipWith {α β γ : Type} (f : α → β → γ) (d1 : α) (d2 : β) (d3 : γ) :
    ∀ (a : List α) (b : List β) (i : Nat), i < a.length → i < b.length →
      (List.zipWith f a b).getD i d3 = f (a.getD i d1) (b.getD i d2) := by
  intro a
  induction a with
  | nil => intro b i h _; simp at h
  | cons x xs ih =>
    intro b i h1 h2
    cases b with
    | nil => simp at h2
    | cons y ys =>
      cases i with
      | zero => simp [List.getD]
      | succ n =>
        simp only [List.zipWith_cons_cons, List.getD_cons_succ]
        exact ih ys n (by simpa using h1) (by simpa using h2)

theorem getD_map_range {α : Type} (f : Nat → α) (n i : Nat) (d : α) (h : i < n) :
    ((List.range n).map f).getD i d = f i := by
  rw [List.getD_eq_getElem _ d (by simpa using h)]
  simp

theorem getD_mem {α : Type} (l : List α) (i : Nat) (d : α) (h : i < l.length) :
    l.getD i d ∈ l := by
  rw [List.getD_eq_getElem _ d h]
  exact List.getElem_mem h

theorem flatMap_map_length {α : Type} (g : Nat → Nat → α) (t k : Nat) :
    ∀ (m s : Nat),
      ((List.range' s m).flatMap (fun i => (List.range' t k).map (g i))).length = m * k := by
  intro m
  induction m with
  | zero => intro s; simp
  | succ m ih =>
    intro s
    rw [List.range'_succ, List.flatMap_cons, List.length_append, List.length_map,
      List.length_range', ih (s + 1)]
    ring

theorem flatMap_map_getElem? {α : Type} (g : Nat → Nat → α) (t k : Nat) :
    ∀ (m s a b : Nat), a < m → b < k →
      ((List.range' s m).flatMap (fun i => (List.range' t k).map (g i)))[a * k + b]? =
        some (g (s + a) (t + b)) := by
  intro m
  induction m with
  | zero => intro s a b ha _; omega
  | succ m ih =>
    intro s a b ha hb
    rw [List.range'_succ, List.flatMap_cons]
    cases a with
    | zero =>
      rw [List.getElem?_append_left (by simpa using hb)]
      rw [List.getElem?_eq_getElem (by simpa using hb)]
      simp [List.getElem_range']
    | succ a =>
      rw [List.getElem?_append_right (by simp; nlinarith)]
      have harith : (a + 1) * k + b - ((List.range' t k).map (g s)).length = a * k + b := by
        simp; ring_nf; omega
      rw [harith, ih (s + 1) a b (by omega) hb]
      congr 2
      omega

/-! ## C7: the difference image and the int16 cast -/

theorem wrap16_id (x : Int) (h1 : -32768 ≤ x) (h2 : x ≤ 32767) : wrap16 x = x := by
  unfold wrap16
  omega

theorem diffPixel_exact (a b : Int) (ha0 : 0 ≤ a) (ha : a ≤ 32767)
    (hb0 : 0 ≤ b) (hb : b ≤ 32767) :
    diffPixel a b = |a - b| ∧ 0 ≤ diffPixel a b := by
  have hA : wrap16 a = a := wrap16_id a (by omega) (by omega)
  have hB : wrap16 b = b := wrap16_id b (by omega) (by omega)
  have hd : wrap16 (a - b) = a - b := wrap16_id _ (by omega) (by omega)
  have habs0 : 0 ≤ |a - b| := abs_nonneg _
  have habs : |a - b| ≤ 32767 := abs_le.2 ⟨by omega, by omega⟩
  have hw : wrap16 |a - b| = |a - b| := wrap16_id _ (by omega) (by omega)
  unfold diffPixel npAbs16
  rw [hA, hB, hd, hw]
  exact ⟨rfl, habs0⟩

/-- C7 (amended): for pixel values representable in int16 (0 ≤ v ≤ 32767 —
in particular any 8-bit input), every pixel of the difference image is the
exact non-negative absolute difference of the two cast images. -/
theorem diffImage_entry_amended (A B : List (List Int)) (r c : Nat)
    (hA : ∀ row ∈ A, ∀ v ∈ row, 0 ≤ v ∧ v ≤ 32767)
    (hB : ∀ row ∈ B, ∀ v ∈ row, 0 ≤ v ∧ v ≤ 32767)
    (hr : r < A.length) (hr' : r < B.length)
    (hc : c < (A.getD r []).length) (hc' : c < (B.getD r []).length) :
    getZ (diffImage A B) r c = |getZ A r c - getZ B r c| ∧
      0 ≤ getZ (diffImage A B) r c := by
  have h1 : getZ (diffImage A B) r c = diffPixel (getZ A r c) (getZ B r c) := by
    unfold getZ diffImage
    rw [getD_zipWith (List.zipWith diffPixel) [] [] [] A B r hr hr',
      getD_zipWith diffPixel 0 0 0 _ _ c hc hc']
  have hAm := hA _ (getD_mem A r [] hr) _ (getD_mem _ c 0 hc)
  have hBm := hB _ (getD_mem B r [] hr') _ (getD_mem _ c 0 hc')
  rw [h1]
  exact diffPixel_exact _ _ hAm.1 hAm.2 hBm.1 hBm.2

/-- C7 (counterexample): for 16-bit pixel depth the int16 cast wraps: the
difference of pixels 65535 and 0 comes out as 1, and the difference of
pixels 0 and 32768 is negative. -/
theorem diffImage_wrap_cex :
    getZ (diffImage [[65535]] [[0]]) 0 0 ≠ |getZ [[65535]] 0 0 - getZ [[0]] 0 0| ∧
      getZ (diffImage [[(0 : Int)]] [[32768]]) 0 0 < 0 := by decide

/-- C7 witness: the amended theorem evaluated at the 8-bit pixels 200, 55. -/
theorem diffImage_entry_amended_witness :
    (∀ row ∈ [[(200 : Int), 3]], ∀ v ∈ row, 0 ≤ v ∧ v ≤ 32767) ∧
      (getZ (diffImage [[200, 3]] [[55, 7]]) 0 0 =
          |getZ [[200, 3]] 0 0 - getZ [[55, 7]] 0 0| ∧
        0 ≤ getZ (diffImage [[200, 3]] [[55, 7]]) 0 0) :=
  ⟨by decide, diffImage_entry_amended [[200, 3]] [[55, 7]] 0 0 (by decide)
    (by decide) (by decide) (by decide) (by decide) (by decide)⟩

/-! ## C10: `run_pca` of `simple_pca.py` -/

/-- C10: whenever the PCA primitive accepts its arguments, `run_pca`
returns the 4×4 all-zero array; in particular two accepted calls with
different arguments return the same value, and the internally computed
reconstruction (`r`, `r'`) does not influence the result. -/
theorem run_pca_const (fi : Nat → List (List ℚ) → Option (List (List ℚ)))
    (n n' : Nat) (data data' r r' : List (List ℚ))
    (h : fi n data = some r) (h' : fi n' data' = some r') :
    run_pca fi n data = some (List.replicate 4 (List.replicate 4 (0 : ℚ))) ∧
      run_pca fi n data = run_pca fi n' data' := by
  simp [run_pca, h, h']

/-- C10 witness: the identity-reconstruction primitive accepts two concrete
calls; both return the all-zero 4×4 array. -/
theorem run_pca_const_witness :
    (fun (_ : Nat) (d : List (List ℚ)) => some d) 2 [[1]] = some [[1]] ∧
      (run_pca (fun _ d => some d) 2 [[(1 : ℚ)]] =
          some (List.replicate 4 (List.replicate 4 (0 : ℚ))) ∧
        run_pca (fun _ d => some d) 2 [[(1 : ℚ)]] =
          run_pca (fun _ d => some d) 7 [[2, 3]]) :=
  ⟨rfl, run_pca_const (fun _ d => some d) 2 7 [[1]] [[2, 3]] [[1]] [[2, 3]] rfl rfl⟩

/-! ## C2: `find_vector_set` only ever writes row 0 -/

section
set_option allowUnsafeReducibility true
attribute [local semireducible] Rat.add Rat.sub Rat.mul Rat.div Rat.neg Rat.inv

/-- C2 (evaluation at the failing input): on the 10×10 difference image with
the four constant blocks 1, 2, 3, 4, the centred vector set is
`[3,…,3; -1,…,-1; -1,…,-1; -1,…,-1]` — vector 1 is the centred zero row,
not the flattened top-right block (the constant 2 block) minus the mean:
the inner loop counter `j` is never reset, so only row 0 is ever written
(ending as the bottom-right block), and the mean is that single block over
the row count. -/
theorem find_vector_set_bug :
    (find_vector_set diff10 10 10).1.getD 1 [] = List.replicate 25 (-1 : ℚ) ∧
      vecSub (flattenBlock diff10 0 5) ((find_vector_set diff10 10 10).2) =
        List.replicate 25 (1 : ℚ) ∧
      (find_vector_set diff10 10 10).1.getD 1 [] ≠
        vecSub (flattenBlock diff10 0 5) ((find_vector_set diff10 10 10).2) := by
  decide

end

/-! ## C3: `find_FVS` projects onto the columns of `EVS` -/

/-- C3 (amended): the feature-vector entry at row-major position
`(i-2)*(n1-4) + (j-2)` (interior pixel `(i, j)`, `i` outer, `j` inner) has
as `c`-th component the dot product of the flattened neighbourhood
`diff[i-2:i+3, j-2:j+3]` with the `c`-th **column** of `EVS` (the vector of
`c`-th coordinates of the basis vectors, not the `c`-th basis vector),
minus entry `c` of the shared mean vector. -/
theorem find_FVS_entry (EVS diff : List (List ℚ)) (mean : List ℚ)
    (n0 n1 i j c : Nat) (hi : 2 ≤ i) (hi2 : i + 2 < n0) (hj : 2 ≤ j)
    (hj2 : j + 2 < n1) (hc : c < (EVS.headD []).length)
    (hm : mean.length = (EVS.headD []).length) :
    ((find_FVS EVS diff mean n0 n1).getD ((i - 2) * (n1 - 4) + (j - 2)) []).getD c 0 =
      dotQ (flattenBlock diff (i - 2) (j - 2)) (colQ EVS c) - mean.getD c 0 := by
  have hfeat : (interiorFeatures diff n0 n1)[(i - 2) * (n1 - 4) + (j - 2)]? =
      some (flattenBlock diff (i - 2) (j - 2)) := by
    unfold interiorFeatures
    rw [flatMap_map_getElem? (fun a b => flattenBlock diff (a - 2) (b - 2)) 2 (n1 - 4)
      (n0 - 4) 2 (i - 2) (j - 2) (by omega) (by omega)]
    congr 3 <;> omega
  have hrow : (find_FVS EVS diff mean n0 n1)[(i - 2) * (n1 - 4) + (j - 2)]? =
      some (vecSub ((List.range (EVS.headD []).length).map
        (fun c => dotQ (flattenBlock diff (i - 2) (j - 2)) (colQ EVS c))) mean) := by
    unfold find_FVS matMulQ
    rw [List.map_map, List.getElem?_map, hfeat]
    rfl
  have houter : (find_FVS EVS diff mean n0 n1).getD ((i - 2) * (n1 - 4) + (j - 2)) [] =
      vecSub ((List.range (EVS.headD []).length).map
        (fun c => dotQ (flattenBlock diff (i - 2) (j - 2)) (colQ EVS c))) mean := by
    rw [List.getD_eq_getElem?_getD (find_FVS EVS diff mean n0 n1)
      ((i - 2) * (n1 - 4) + (j - 2)) [], hrow, Option.getD_some]
  rw [houter]
  unfold vecSub
  rw [getD_zipWith (· - ·) 0 0 0 _ _ c (by simpa using hc) (by omega)]
  rw [getD_map_range _ _ _ _ hc]

section
set_option allowUnsafeReducibility true
attribute [local semireducible] Rat.add Rat.sub Rat.mul Rat.div Rat.neg Rat.inv

/-- C3 (counterexample): with the orthonormal basis `permE` (a 3-cycle
permutation, hence not symmetric) on the 5×5 difference image with entries
0..24, component 0 of the single feature vector is 2 (the dot product with
column 0 of the basis matrix), not the dot product with basis vector 0
(which is 1): `np.dot(feature_vector_set, EVS)` does not dot features
against the component vectors. -/
theorem find_FVS_row_dot_cex :
    ((find_FVS permE diff5 zeros25 5 5).getD 0 []).getD 0 0 ≠
      dotQ (flattenBlock diff5 0 0) (permE.getD 0 []) - zeros25.getD 0 0 := by
  decide

/-- C3 witness: the amended entry formula evaluated at the interior pixel
(2, 2) of `diff5` with the basis `permE` and a zero mean vector. -/
theorem find_FVS_entry_witness :
    (0 < (permE.headD []).length ∧ zeros25.length = (permE.headD []).length) ∧
      ((find_FVS permE diff5 zeros25 5 5).getD ((2 - 2) * (5 - 4) + (2 - 2)) []).getD 0 0 =
        dotQ (flattenBlock diff5 (2 - 2) (2 - 2)) (colQ permE 0) - zeros25.getD 0 0 :=
  ⟨⟨by decide, by decide⟩,
    find_FVS_entry permE diff5 zeros25 5 5 2 2 0 (by decide) (by decide) (by decide)
      (by decide) (by decide) (by decide)⟩

end

/-! ## C6: the minority-cluster selection of `clustering` -/

theorem mem_firstOccs (y : Nat) : ∀ (l : List Nat), y ∈ firstOccs l ↔ y ∈ l := by
  intro l
  induction l with
  | nil => simp [firstOccs]
  | cons x xs ih =>
    by_cases hyx : y = x
    · subst hyx; simp [firstOccs]
    · simp [firstOccs, List.mem_filter, hyx, ih]

theorem firstOccs_pairwise : ∀ (l : List Nat),
    (firstOccs l).Pairwise (fun a b => List.indexOf a l < List.indexOf b l) := by
  intro l
  induction l with
  | nil => simp [firstOccs]
  | cons x xs ih =>
    unfold firstOccs
    refine List.Pairwise.cons ?_ ?_
    · intro b hb
      have hbx : b ≠ x := by
        have := (List.mem_filter.1 hb).2
        simpa using this
      rw [List.indexOf_cons_self, List.indexOf_cons_ne _ (Ne.symm hbx)]
      exact Nat.succ_pos _
    · refine List.Pairwise.imp_of_mem ?_ ((ih.filter (fun y => y != x)))
      intro a b ha hb hab
      have hax : a ≠ x := by simpa using (List.mem_filter.1 ha).2
      have hbx : b ≠ x := by simpa using (List.mem_filter.1 hb).2
      rw [List.indexOf_cons_ne _ (Ne.symm hax), List.indexOf_cons_ne _ (Ne.symm hbx)]
      omega

theorem foldPick_mem (φ : Nat → Nat) :
    ∀ (xs : List Nat) (x0 : Nat),
      xs.foldl (fun best y => if φ y < φ best then y else best) x0 ∈ x0 :: xs := by
  intro xs
  induction xs with
  | nil => intro x0; simp
  | cons z zs ih =>
    intro x0
    simp only [List.foldl_cons]
    rcases List.mem_cons.1 (ih (if φ z < φ x0 then z else x0)) with h | h
    · rw [h]
      by_cases hzx : φ z < φ x0 <;> simp [hzx]
    · simp [h]

theorem foldPick_le (φ : Nat → Nat) :
    ∀ (xs : List Nat) (x0 y : Nat), y ∈ x0 :: xs →
      φ (xs.foldl (fun best y => if φ y < φ best then y else best) x0) ≤ φ y := by
  intro xs
  induction xs with
  | nil =>
    intro x0 y hy
    simp at hy
    simp [hy]
  | cons z zs ih =>
    intro x0 y hy
    simp only [List.foldl_cons]
    have hhead : φ (zs.foldl (fun best y => if φ y < φ best then y else best)
        (if φ z < φ x0 then z else x0)) ≤ φ (if φ z < φ x0 then z else x0) :=
      ih _ _ (List.mem_cons_self _ _)
    have hfx0 : φ (if φ z < φ x0 then z else x0) ≤ φ x0 := by
      by_cases hzx : φ z < φ x0 <;> simp [hzx]; omega
    have hfz : φ (if φ z < φ x0 then z else x0) ≤ φ z := by
      by_cases hzx : φ z < φ x0 <;> simp [hzx]; omega
    rcases List.mem_cons.1 hy with h | h
    · subst h; omega
    · rcases List.mem_cons.1 h with h' | h'
      · subst h'; omega
      · exact ih _ _ (List.mem_cons_of_mem _ h')

theorem foldPick_cases (φ : Nat → Nat) :
    ∀ (xs : List Nat) (x0 : Nat),
      xs.foldl (fun best y => if φ y < φ best then y else best) x0 = x0 ∨
        (xs.foldl (fun best y => if φ y < φ best then y else best) x0 ∈ xs ∧
          φ (xs.foldl (fun best y => if φ y < φ best then y else best) x0) < φ x0) := by
  intro xs
  induction xs with
  | nil => intro x0; left; rfl
  | cons z zs ih =>
    intro x0
    simp only [List.foldl_cons]
    by_cases hzx : φ z < φ x0
    · simp only [if_pos hzx]
      rcases ih z with h | h
      · right; rw [h]; exact ⟨List.mem_cons_self _ _, hzx⟩
      · right; exact ⟨List.mem_cons_of_mem _ h.1, lt_trans h.2 hzx⟩
    · simp only [if_neg hzx]
      rcases ih x0 with h | h
      · left; exact h
      · right; exact ⟨List.mem_cons_of_mem _ h.1, h.2⟩

theorem foldPick_firstTie (φ w : Nat → Nat) :
    ∀ (xs : List Nat) (x0 : Nat),
      (x0 :: xs).Pairwise (fun a b => w a < w b) →
      ∀ y ∈ x0 :: xs,
        φ y = φ (xs.foldl (fun best y => if φ y < φ best then y else best) x0) →
        w (xs.foldl (fun best y => if φ y < φ best then y else best) x0) ≤ w y := by
  intro xs
  induction xs with
  | nil =>
    intro x0 _ y hy _
    simp at hy
    simp [hy]
  | cons z zs ih =>
    intro x0 hpw y hy hcnt
    have hx0z : w x0 < w z := (List.pairwise_cons.1 hpw).1 z (List.mem_cons_self _ _)
    have hx0zs : ∀ u ∈ zs, w x0 < w u := fun u hu =>
      (List.pairwise_cons.1 hpw).1 u (List.mem_cons_of_mem _ hu)
    have hzzs : ∀ u ∈ zs, w z < w u := fun u hu =>
      (List.pairwise_cons.1 (List.pairwise_cons.1 hpw).2).1 u hu
    have hzs : zs.Pairwise (fun a b => w a < w b) :=
      (List.pairwise_cons.1 (List.pairwise_cons.1 hpw).2).2
    simp only [List.foldl_cons] at hcnt ⊢
    by_cases hzx : φ z < φ x0
    · rw [if_pos hzx] at hcnt ⊢
      have hpw' : (z :: zs).Pairwise (fun a b => w a < w b) :=
        List.pairwise_cons.2 ⟨hzzs, hzs⟩
      rcases List.mem_cons.1 hy with h | h
      · subst h
        exfalso
        have hle : φ (zs.foldl (fun best y => if φ y < φ best then y else best) z) ≤ φ z :=
          foldPick_le φ zs z z (List.mem_cons_self _ _)
        omega
      · exact ih z hpw' y h hcnt
    · rw [if_neg hzx] at hcnt ⊢
      have hpw' : (x0 :: zs).Pairwise (fun a b => w a < w b) :=
        List.pairwise_cons.2 ⟨hx0zs, hzs⟩
      rcases List.mem_cons.1 hy with h | h
      · subst h
        exact ih _ hpw' y (List.mem_cons_self _ _) hcnt
      · rcases List.mem_cons.1 h with h' | h'
        · subst h'
          rcases foldPick_cases φ zs x0 with hc | hc
          · rw [hc]; exact le_of_lt hx0z
          · exfalso; omega
        · exact ih _ hpw' y (List.mem_cons_of_mem _ h') hcnt

/-- C6: for a non-empty label sequence, the label selected by
`min(count, key=count.get)` occurs in the sequence, its member count is
minimal among all occurring labels, and among labels with the tied minimal
count it is the one whose first occurrence comes earliest. -/
theorem clustering_leastIndex_spec (l : List Nat) (x : Nat) (hne : l ≠ [])
    (hx : x ∈ l) :
    ∃ r, pyMinByCount l = some r ∧ r ∈ l ∧ l.count r ≤ l.count x ∧
      (l.count x = l.count r → List.indexOf r l ≤ List.indexOf x l) := by
  obtain ⟨a, l', rfl⟩ := List.exists_cons_of_ne_nil hne
  have hfo : firstOccs (a :: l') = a :: (firstOccs l').filter (fun y => y != a) := rfl
  set t := (firstOccs l').filter (fun y => y != a) with ht
  set r := t.foldl (fun best y => if (a :: l').count y < (a :: l').count best then y else best) a
    with hr
  refine ⟨r, ?_, ?_, ?_, ?_⟩
  · unfold pyMinByCount
    rw [hfo]
  · have := foldPick_mem (fun y => (a :: l').count y) t a
    rw [← hr] at this
    have : r ∈ firstOccs (a :: l') := by rw [hfo]; exact this
    exact (mem_firstOccs r (a :: l')).1 this
  · have hxfo : x ∈ a :: t := by
      rw [← hfo]; exact (mem_firstOccs x (a :: l')).2 hx
    exact foldPick_le (fun y => (a :: l').count y) t a x hxfo
  · intro hcnt
    have hxfo : x ∈ a :: t := by
      rw [← hfo]; exact (mem_firstOccs x (a :: l')).2 hx
    have hpw : (a :: t).Pairwise
        (fun u v => List.indexOf u (a :: l') < List.indexOf v (a :: l')) := by
      rw [← hfo]; exact firstOccs_pairwise (a :: l')
    exact foldPick_firstTie (fun y => (a :: l').count y)
      (fun y => List.indexOf y (a :: l')) t a hpw x hxfo hcnt

/-- C6 witness: on the labels `[0, 1, 1, 2, 0]` (counts 2, 2, 1) the
selected label is 2, the unique minimal one. -/
theorem clustering_leastIndex_spec_witness :
    ∃ r, pyMinByCount [0, 1, 1, 2, 0] = some r ∧ r ∈ [0, 1, 1, 2, 0] ∧
      [0, 1, 1, 2, 0].count r ≤ [0, 1, 1, 2, 0].count 1 ∧
      ([0, 1, 1, 2, 0].count 1 = [0, 1, 1, 2, 0].count r →
        List.indexOf r [0, 1, 1, 2, 0] ≤ List.indexOf 1 [0, 1, 1, 2, 0]) :=
  clustering_leastIndex_spec [0, 1, 1, 2, 0] 1 (by decide) (by decide)

/-! ## C8: change-map construction -/

/-- C8 (amended): when the labels and `leastIndex` all lie in `[0, 3)`, the
two in-place passes of the source equal the single mapping sending cells
labelled `leastIndex` to 255 and every other cell to 0; every value of the
change map is 0 or 255 (both values occur only when at least two distinct
labels occur — an all-one-cluster outcome yields an all-255 map). -/
theorem buildChangeMap_amended (least : Nat) (grid : List (List Nat))
    (hl : least < 3) (hv : ∀ row ∈ grid, ∀ v ∈ row, v < 3) :
    buildChangeMap least grid =
        grid.map (fun row => row.map (fun v => if v = least then 255 else 0)) ∧
      ∀ row ∈ buildChangeMap least grid, ∀ v ∈ row, v = 0 ∨ v = 255 := by
  have h1 : buildChangeMap least grid =
      grid.map (fun row => row.map (fun v => if v = least then 255 else 0)) := by
    unfold buildChangeMap
    rw [List.map_map]
    refine List.map_congr_left ?_
    intro row hrow
    simp only [Function.comp_apply, List.map_map]
    refine List.map_congr_left ?_
    intro v hvmem
    have hv3 : v < 3 := hv row hrow v hvmem
    by_cases hveq : v = least
    · simp [hveq]
    · have : v ≠ 255 := by omega
      simp [hveq, this]
  refine ⟨h1, ?_⟩
  rw [h1]
  intro row hrow v hvmem
  obtain ⟨row0, _, rfl⟩ := List.mem_map.1 hrow
  obtain ⟨v0, _, rfl⟩ := List.mem_map.1 hvmem
  by_cases hveq : v0 = least <;> simp [hveq]

/-- C8 (counterexample): a legitimate clustering outcome in which every
sample lands in one cluster (labels all 0, so `leastIndex = 0`) produces an
all-255 change map: it does not contain the two distinct values 0 and 255.
-/
theorem buildChangeMap_uniform_cex :
    pyMinByCount [0, 0, 0, 0] = some 0 ∧
      buildChangeMap 0 [[0, 0], [0, 0]] = [[255, 255], [255, 255]] ∧
      ¬(0 ∈ (buildChangeMap 0 [[0, 0], [0, 0]]).flatten) := by decide

/-- C8 witness: the amended mapping evaluated at `leastIndex = 2` on a 2×2
label grid containing both 2 and other labels. -/
theorem buildChangeMap_amended_witness :
    (2 < 3 ∧ ∀ row ∈ [[0, 1], [2, 2]], ∀ v ∈ row, v < 3) ∧
      (buildChangeMap 2 [[0, 1], [2, 2]] =
          [[0, 1], [2, 2]].map (fun row => row.map (fun v => if v = 2 then 255 else 0)) ∧
        ∀ row ∈ buildChangeMap 2 [[0, 1], [2, 2]], ∀ v ∈ row, v = 0 ∨ v = 255) :=
  ⟨⟨by decide, by decide⟩, buildChangeMap_amended 2 [[0, 1], [2, 2]] (by decide) (by decide)⟩

/-! ## Pipeline plumbing lemmas -/

theorem interiorFeatures_length (diff : List (List ℚ)) (n0 n1 : Nat) :
    (interiorFeatures diff n0 n1).length = (n0 - 4) * (n1 - 4) := by
  unfold interiorFeatures
  exact flatMap_map_length _ 2 (n1 - 4) (n0 - 4) 2

theorem find_FVS_length (EVS diff : List (List ℚ)) (mean : List ℚ) (n0 n1 : Nat) :
    (find_FVS EVS diff mean n0 n1).length = (n0 - 4) * (n1 - 4) := by
  unfold find_FVS matMulQ
  rw [List.length_map, List.length_map, interiorFeatures_length]

theorem pyMinByCount_isSome (l : List Nat) (h : l ≠ []) :
    ∃ r, pyMinByCount l = some r := by
  obtain ⟨a, l', rfl⟩ := List.exists_cons_of_ne_nil h
  exact ⟨_, rfl⟩

theorem listChunks_length {α : Type} (l : List α) (d0 d1 : Nat) :
    (listChunks l d0 d1).length = d0 := by
  simp [listChunks]

theorem listChunks_row_length {α : Type} (l : List α) (d0 d1 : Nat)
    (h : l.length = d0 * d1) :
    ∀ row ∈ listChunks l d0 d1, row.length = d1 := by
  intro row hrow
  obtain ⟨r, hr, rfl⟩ := List.mem_map.1 hrow
  have hrd : r < d0 := List.mem_range.1 hr
  have hmul : r * d1 + d1 ≤ d0 * d1 := by
    have := Nat.mul_le_mul_right d1 (Nat.succ_le_of_lt hrd)
    rwa [Nat.succ_mul] at this
  simp only [List.length_take, List.length_drop, h]
  omega

theorem npReshape2_eq {α : Type} (l : List α) (n : Nat) (h4 : 4 ≤ n)
    (h : l.length = (n - 4) * (n - 4)) :
    npReshape2 l ((n : Int) - 4) ((n : Int) - 4) =
      some (listChunks l (n - 4) (n - 4)) := by
  unfold npReshape2
  rw [if_pos]
  · congr 2 <;> omega
  · refine ⟨by omega, by omega, ?_⟩
    rw [h]
    push_cast [h4]
    ring

theorem headD_row_length {α : Type} (l : List (List α)) (w : Nat) (hne : l ≠ [])
    (hrows : ∀ row ∈ l, row.length = w) : (l.headD []).length = w := by
  obtain ⟨a, t, rfl⟩ := List.exists_cons_of_ne_nil hne
  exact hrows a (List.mem_cons_self _ _)

theorem buildChangeMap_length (le : Nat) (g : List (List Nat)) :
    (buildChangeMap le g).length = g.length := by
  simp [buildChangeMap]

theorem buildChangeMap_row_lengths (le : Nat) (g : List (List Nat)) (w : Nat)
    (hrows : ∀ row ∈ g, row.length = w) :
    ∀ row ∈ buildChangeMap le g, row.length = w := by
  intro row hrow
  unfold buildChangeMap at hrow
  rw [List.map_map] at hrow
  obtain ⟨row0, hrow0, rfl⟩ := List.mem_map.1 hrow
  simpa using hrows row0 hrow0

theorem buildChangeMap_vals (le : Nat) (g : List (List Nat)) :
    ∀ row ∈ buildChangeMap le g, ∀ v ∈ row, v = 0 ∨ v = 255 := by
  intro row hrow v hv
  unfold buildChangeMap at hrow
  rw [List.map_map] at hrow
  obtain ⟨row0, _, rfl⟩ := List.mem_map.1 hrow
  simp only [Function.comp_apply, List.map_map] at hv
  obtain ⟨v0, _, rfl⟩ := List.mem_map.1 hv
  simp only [Function.comp_apply]
  by_cases h1 : v0 = le
  · simp [h1]
  · by_cases h2 : v0 = 255
    · simp [h1, h2]
    · simp [h1, h2]

theorem getD_mem_or {α : Type} (l : List α) (n : Nat) (d : α) :
    l.getD n d = d ∨ l.getD n d ∈ l := by
  by_cases h : n < l.length
  · right; exact getD_mem l n d h
  · left
    rw [List.getD_eq_getElem?_getD, List.getElem?_eq_none (by omega)]
    rfl

theorem getNI_vals (img : List (List Nat)) (r c : Int)
    (himg : ∀ row ∈ img, ∀ v ∈ row, v = 0 ∨ v = 255) :
    getNI img r c = 0 ∨ getNI img r c = 255 := by
  unfold getNI
  by_cases hrc : 0 ≤ r ∧ 0 ≤ c
  · rw [if_pos hrc]
    rcases getD_mem_or img r.toNat [] with h | h
    · rw [h]; left; rfl
    · rcases getD_mem_or (img.getD r.toNat []) c.toNat 0 with h' | h'
      · rw [h']; left; rfl
      · exact himg _ h _ h'
  · rw [if_neg hrc]; left; rfl

theorem foldr_min_mem (L : List Nat) :
    L.foldr min 255 = 255 ∨ L.foldr min 255 ∈ L := by
  induction L with
  | nil => left; rfl
  | cons a t ih =>
    simp only [List.foldr_cons]
    rcases min_choice a (t.foldr min 255) with h | h
    · right; rw [h]; exact List.mem_cons_self _ _
    · rcases ih with h' | h'
      · left; rw [h, h']
      · right; rw [h]; exact List.mem_cons_of_mem _ h'

theorem erode_length (img kernel : List (List Nat)) :
    (erode img kernel).length = img.length := by
  simp [erode]

theorem erode_row_lengths (img kernel : List (List Nat)) :
    ∀ row ∈ erode img kernel, row.length = (img.headD []).length := by
  intro row hrow
  unfold erode at hrow
  obtain ⟨i, _, rfl⟩ := List.mem_map.1 hrow
  simp

theorem erode_vals (img kernel : List (List Nat))
    (himg : ∀ row ∈ img, ∀ v ∈ row, v = 0 ∨ v = 255) :
    ∀ row ∈ erode img kernel, ∀ v ∈ row, v = 0 ∨ v = 255 := by
  intro row hrow v hv
  unfold erode at hrow
  obtain ⟨i, _, rfl⟩ := List.mem_map.1 hrow
  obtain ⟨j, _, rfl⟩ := List.mem_map.1 hv
  rcases foldr_min_mem (erodeSamples img kernel i j) with h | h
  · right; exact h
  · have hall : ∀ v ∈ erodeSamples img kernel i j, v = 0 ∨ v = 255 := by
      intro v hv'
      unfold erodeSamples at hv'
      rw [List.mem_flatMap] at hv'
      obtain ⟨di, _, hdi⟩ := hv'
      rw [List.mem_filterMap] at hdi
      obtain ⟨dj, _, hdj⟩ := hdi
      by_cases hk : (kernel.getD di []).getD dj 0 = 1
      · rw [if_pos hk, Option.some_inj] at hdj
        rw [← hdj]
        exact getNI_vals img _ _ himg
      · rw [if_neg hk] at hdj
        exact absurd hdj (by simp)
    exact hall _ h

/-! ## The canvas write on an even margin -/

theorem canvasGrid_length (S b : Nat) (clean : List (List Nat)) :
    (canvasGrid S b clean).length = S := by
  simp [canvasGrid]

theorem canvasGrid_row_lengths (S b : Nat) (clean : List (List Nat)) :
    ∀ row ∈ canvasGrid S b clean, row.length = S := by
  intro row hrow
  unfold canvasGrid at hrow
  obtain ⟨r, _, rfl⟩ := List.mem_map.1 hrow
  simp

theorem canvasGrid_entry (S b : Nat) (clean : List (List Nat)) (r c : Nat)
    (hr : r < S) (hc : c < S) :
    getN (canvasGrid S b clean) r c =
      if b ≤ r ∧ r < S - b ∧ b ≤ c ∧ c < S - b then
        getN clean (bcastIdx clean.length (r - b))
          (bcastIdx (clean.headD []).length (c - b)) % 256
      else 0 := by
  unfold canvasGrid getN
  rw [getD_map_range _ _ _ _ hr, getD_map_range _ _ _ _ hc]

theorem canvasGrid_vals (S b : Nat) (clean : List (List Nat))
    (hvals : ∀ row ∈ clean, ∀ v ∈ row, v = 0 ∨ v = 255) :
    ∀ row ∈ canvasGrid S b clean, ∀ v ∈ row, v = 0 ∨ v = 255 := by
  intro row hrow v hv
  unfold canvasGrid at hrow
  obtain ⟨r, _, rfl⟩ := List.mem_map.1 hrow
  obtain ⟨c, _, rfl⟩ := List.mem_map.1 hv
  by_cases hin : b ≤ r ∧ r < S - b ∧ b ≤ c ∧ c < S - b
  · rw [if_pos hin]
    have hcv : getN clean (bcastIdx clean.length (r - b))
        (bcastIdx (clean.headD []).length (c - b)) = 0 ∨
        getN clean (bcastIdx clean.length (r - b))
          (bcastIdx (clean.headD []).length (c - b)) = 255 := by
      unfold getN
      rcases getD_mem_or clean (bcastIdx clean.length (r - b)) [] with h | h
      · rw [h]; left; rfl
      · rcases getD_mem_or (clean.getD (bcastIdx clean.length (r - b)) [])
          (bcastIdx (clean.headD []).length (c - b)) 0 with h' | h'
        · rw [h']; left; rfl
        · exact hvals _ h _ h'
    rcases hcv with h | h <;> rw [h]
    · left; rfl
    · right; rfl
  · rw [if_neg hin]; left; rfl

theorem canvasWrite_ok_even (S m : Nat) (clean : List (List Nat))
    (hm : clean.length = m) (hcols : (clean.headD []).length = m)
    (h1 : 1 ≤ m) (hms : m ≤ S) (heven : (S - m) % 2 = 0) :
    ∃ M, canvasWrite S clean = .ok M ∧ M.length = S ∧
      (∀ row ∈ M, row.length = S) ∧
      (∀ r c : Nat, r < S → c < S →
        getN M r c =
          if (S - m) / 2 ≤ r ∧ r < (S - m) / 2 + m ∧
              (S - m) / 2 ≤ c ∧ c < (S - m) / 2 + m then
            getN clean (r - (S - m) / 2) (c - (S - m) / 2) % 256
          else 0) ∧
      ((∀ row ∈ clean, ∀ v ∈ row, v = 0 ∨ v = 255) →
        ∀ row ∈ M, ∀ v ∈ row, v = 0 ∨ v = 255) := by
  have hseq : canvasWrite S clean =
      if (clean.length = S - (S - clean.length) / 2 - (S - clean.length) / 2 ∨
            clean.length = 1) ∧
          ((clean.headD []).length = S - (S - clean.length) / 2 - (S - clean.length) / 2 ∨
            (clean.headD []).length = 1) then
        .ok (canvasGrid S ((S - clean.length) / 2) clean)
      else .error (.valueError "could not broadcast input array") := rfl
  have hb : (S - clean.length) / 2 = (S - m) / 2 := by rw [hm]
  have ht : S - (S - clean.length) / 2 - (S - clean.length) / 2 = m := by
    rw [hb]; omega
  refine ⟨canvasGrid S ((S - m) / 2) clean, ?_, canvasGrid_length _ _ _,
    canvasGrid_row_lengths _ _ _, ?_, fun hv => canvasGrid_vals _ _ _ hv⟩
  · rw [hseq, if_pos ⟨Or.inl (by omega), Or.inl (by omega)⟩, hb]
  · intro r c hr hc
    rw [canvasGrid_entry _ _ _ _ _ hr hc]
    have hSb : S - (S - m) / 2 = (S - m) / 2 + m := by omega
    rw [hSb, hm, hcols]
    by_cases hin : (S - m) / 2 ≤ r ∧ r < (S - m) / 2 + m ∧
        (S - m) / 2 ≤ c ∧ c < (S - m) / 2 + m
    · rw [if_pos hin, if_pos hin]
      have hbr : bcastIdx m (r - (S - m) / 2) = r - (S - m) / 2 := by
        unfold bcastIdx
        by_cases hm1 : m = 1
        · rw [if_pos hm1]; omega
        · rw [if_neg hm1]
      have hbc : bcastIdx m (c - (S - m) / 2) = c - (S - m) / 2 := by
        unfold bcastIdx
        by_cases hm1 : m = 1
        · rw [if_pos hm1]; omega
        · rw [if_neg hm1]
      rw [hbr, hbc]
    · rw [if_neg hin, if_neg hin]

/-! ## C4: footprint reconciliation -/

/-- C4 (amended): when `S - (S'-4)` is **even**, the final mask is the zero
canvas with the eroded map written at `border = (S-(S'-4))/2` in both axes,
extending exactly `S'-4` cells; when `S - (S'-4)` is odd the target slice
`[border : S-border]` has side `S'-3 ≠ S'-4`, so (except in the broadcast
case of a 1×1 map) the numpy assignment fails and the pipeline raises
instead of succeeding. -/
theorem canvasWrite_even_placement (S Sp : Nat) (clean : List (List Nat))
    (hSp : Sp = S / 5 * 5) (hS5 : 5 ≤ S)
    (hm : clean.length = Sp - 4) (hcols : (clean.headD []).length = Sp - 4)
    (heven : (S - (Sp - 4)) % 2 = 0) :
    ∃ M, canvasWrite S clean = .ok M ∧ M.length = S ∧
      (∀ row ∈ M, row.length = S) ∧
      (∀ r c : Nat, r < S → c < S →
        getN M r c =
          if (S - (Sp - 4)) / 2 ≤ r ∧ r < (S - (Sp - 4)) / 2 + (Sp - 4) ∧
              (S - (Sp - 4)) / 2 ≤ c ∧ c < (S - (Sp - 4)) / 2 + (Sp - 4) then
            getN clean (r - (S - (Sp - 4)) / 2) (c - (S - (Sp - 4)) / 2) % 256
          else 0) := by
  have h1 : 1 ≤ Sp - 4 := by omega
  have hms : Sp - 4 ≤ S := by omega
  obtain ⟨M, hM⟩ := canvasWrite_ok_even S (Sp - 4) clean hm hcols h1 hms heven
  exact ⟨M, hM.1, hM.2.1, hM.2.2.1, hM.2.2.2.1⟩

/-- C4 (counterexample): on 11×11 inputs (`S' = 10`, eroded map 6×6,
`S - (S'-4) = 5` odd) the target slice `x[2:9, 2:9]` is 7×7, the assignment
cannot broadcast a 6×6 array into it, and the pipeline fails rather than
succeeding. -/
theorem find_PCAKmeans_odd_margin_cex :
    find_PCAKmeans Pconc (zImg 11) (zImg 11) =
      .error (.valueError "could not broadcast input array") := by
  rfl

/-- C4 witness: the placement formula at `S = 7` (`S' = 5`, map 1×1,
margin `7 - 1 = 6` even, border 3). -/
theorem canvasWrite_even_placement_witness :
    (5 = 7 / 5 * 5 ∧ ([[(255 : Nat)]]).length = 5 - 4 ∧ (7 - (5 - 4)) % 2 = 0) ∧
      ∃ M, canvasWrite 7 [[255]] = .ok M ∧ M.length = 7 ∧
        (∀ row ∈ M, row.length = 7) ∧
        (∀ r c : Nat, r < 7 → c < 7 →
          getN M r c =
            if (7 - (5 - 4)) / 2 ≤ r ∧ r < (7 - (5 - 4)) / 2 + (5 - 4) ∧
                (7 - (5 - 4)) / 2 ≤ c ∧ c < (7 - (5 - 4)) / 2 + (5 - 4) then
              getN [[255]] (r - (7 - (5 - 4)) / 2) (c - (7 - (5 - 4)) / 2) % 256
            else 0) :=
  ⟨⟨by decide, by decide, by decide⟩,
    canvasWrite_even_placement 7 5 [[255]] (by decide) (by decide) (by decide)
      (by decide) (by decide)⟩

/-! ## C5: behaviour on degenerate inputs -/

theorem find_FVS_nil (EVS diff : List (List ℚ)) (mean : List ℚ) (n0 n1 : Nat)
    (h : n0 ≤ 4) : find_FVS EVS diff mean n0 n1 = [] := by
  apply List.eq_nil_of_length_eq_zero
  rw [find_FVS_length]
  have : n0 - 4 = 0 := by omega
  rw [this, Nat.zero_mul]

theorem clustering_nil (km : Nat → List (List ℚ) → List Nat) (n0 n1 : Nat)
    (hkm : (km 3 ([] : List (List ℚ))).length = 0) :
    clustering km [] 3 n0 n1 =
      .error (.valueError "min() arg is an empty sequence") := by
  have hnil : km 3 [] = [] := List.eq_nil_of_length_eq_zero hkm
  unfold clustering
  rw [hnil]
  rfl

/-- C5 (amended): on square inputs smaller than 5 (so the reduced size `S'`
collapses to 0, including empty and 4×4 inputs), the pipeline performs no
input validation and surfaces no typed failure: it runs until a library
primitive rejects its argument (in the embedding, Python's `min` on the
empty label counter) and returns an untyped error, with no partial mask. -/
theorem find_PCAKmeans_degenerate_error (S : Nat) (P : Primitives)
    (pre post : List (List Int)) (hS : S < 5)
    (hpre : pre.length = S)
    (hkm : ∀ k vs, (P.kmeans_predict k vs).length = vs.length) :
    find_PCAKmeans P pre post =
      .error (.valueError "min() arg is an empty sequence") := by
  simp only [find_PCAKmeans, hpre]
  rw [find_FVS_nil _ _ _ _ _ (by omega : S / 5 * 5 ≤ 4),
    clustering_nil _ _ _ (by rw [hkm]; rfl)]

/-- C5 (counterexample): on 4×4 all-zero inputs the pipeline fails with an
untyped library error, not with the typed `DegenerateGeometry` or
`ShapeMismatch` failure the claim requires, and returns no mask. -/
theorem find_PCAKmeans_untyped_failure_cex :
    find_PCAKmeans Pconc (zImg 4) (zImg 4) =
        .error (.valueError "min() arg is an empty sequence") ∧
      find_PCAKmeans Pconc (zImg 4) (zImg 4) ≠
        .error PipeError.degenerateGeometry ∧
      find_PCAKmeans Pconc (zImg 4) (zImg 4) ≠ .error PipeError.shapeMismatch := by
  have h : find_PCAKmeans Pconc (zImg 4) (zImg 4) =
      .error (.valueError "min() arg is an empty sequence") := rfl
  refine ⟨h, ?_, ?_⟩ <;> rw [h] <;> simp

/-- C5 witness: the amended statement evaluated at the 4×4 all-zero inputs
with the concrete primitive bundle. -/
theorem find_PCAKmeans_degenerate_error_witness :
    (4 < 5 ∧ (zImg 4).length = 4) ∧
      find_PCAKmeans Pconc (zImg 4) (zImg 4) =
        .error (.valueError "min() arg is an empty sequence") :=
  ⟨⟨by decide, by decide⟩,
    find_PCAKmeans_degenerate_error 4 Pconc (zImg 4) (zImg 4) (by decide) (by decide)
      (fun k vs => by simp [Pconc, kmZero])⟩

/-! ## C1: the final mask on non-degenerate, even-margin inputs -/

theorem clustering_ok (km : Nat → List (List ℚ) → List Nat)
    (FVS : List (List ℚ)) (n : Nat) (h5 : 5 ≤ n)
    (hlen : (km 3 FVS).length = (n - 4) * (n - 4)) :
    ∃ li, clustering km FVS 3 n n =
        .ok (li, listChunks (km 3 FVS) (n - 4) (n - 4)) ∧
      pyMinByCount (km 3 FVS) = some li := by
  have hne : km 3 FVS ≠ [] := by
    intro hnil
    rw [hnil] at hlen
    simp at hlen
    omega
  obtain ⟨li, hli⟩ := pyMinByCount_isSome _ hne
  refine ⟨li, ?_, hli⟩
  simp only [clustering, hli, npReshape2_eq _ n (by omega) hlen]

/-- C1 (amended): for square same-shape inputs of side `S ≥ 5` whose margin
`S - (S'-4)` is even (`S' = floor(S/5)*5`), and any primitives meeting
their contracts (one k-means label per feature vector), the pipeline
returns a mask of shape `S×S`, every value is 0 or 255, and every cell
outside the centred `(S'-4)×(S'-4)` sub-rectangle holding the cleaned map
is 0.  (When the margin is odd and `S' > 5` the pipeline instead fails: see
the counterexample at 21×21.) -/
theorem find_PCAKmeans_mask_props (S : Nat) (P : Primitives)
    (pre post : List (List Int))
    (hpre : pre.length = S) (hprer : ∀ row ∈ pre, row.length = S)
    (hpost : post.length = S) (hpostr : ∀ row ∈ post, row.length = S)
    (hS5 : 5 ≤ S) (heven : (S - (S / 5 * 5 - 4)) % 2 = 0)
    (hkm : ∀ k vs, (P.kmeans_predict k vs).length = vs.length) :
    ∃ M, find_PCAKmeans P pre post = .ok M ∧ M.length = S ∧
      (∀ row ∈ M, row.length = S) ∧
      (∀ row ∈ M, ∀ v ∈ row, v = 0 ∨ v = 255) ∧
      (∀ r c : Nat, r < S → c < S →
        (r < (S - (S / 5 * 5 - 4)) / 2 ∨
            (S - (S / 5 * 5 - 4)) / 2 + (S / 5 * 5 - 4) ≤ r ∨
          c < (S - (S / 5 * 5 - 4)) / 2 ∨
            (S - (S / 5 * 5 - 4)) / 2 + (S / 5 * 5 - 4) ≤ c) →
        getN M r c = 0) := by
  have hhead : (pre.headD []).length = S :=
    headD_row_length pre S (by intro hnil; rw [hnil] at hpre; simp at hpre; omega) hprer
  have hSp5 : 5 ≤ S / 5 * 5 := by omega
  simp only [find_PCAKmeans, hpre, hhead]
  obtain ⟨li, hcl, hli⟩ := clustering_ok P.kmeans_predict
    (find_FVS
      (P.pca_components
        (find_vector_set
          ((diffImage (P.resize pre (S / 5 * 5, S / 5 * 5))
                (P.resize post (S / 5 * 5, S / 5 * 5))).map
            (fun row => row.map (fun z => (z : ℚ))))
          (S / 5 * 5) (S / 5 * 5)).1)
      ((diffImage (P.resize pre (S / 5 * 5, S / 5 * 5))
            (P.resize post (S / 5 * 5, S / 5 * 5))).map
        (fun row => row.map (fun z => (z : ℚ))))
      (find_vector_set
        ((diffImage (P.resize pre (S / 5 * 5, S / 5 * 5))
              (P.resize post (S / 5 * 5, S / 5 * 5))).map
          (fun row => row.map (fun z => (z : ℚ))))
        (S / 5 * 5) (S / 5 * 5)).2
      (S / 5 * 5) (S / 5 * 5))
    (S / 5 * 5) (by omega) (by rw [hkm, find_FVS_length])
  rw [hcl]
  set labels := P.kmeans_predict 3
    (find_FVS
      (P.pca_components
        (find_vector_set
          ((diffImage (P.resize pre (S / 5 * 5, S / 5 * 5))
                (P.resize post (S / 5 * 5, S / 5 * 5))).map
            (fun row => row.map (fun z => (z : ℚ))))
          (S / 5 * 5) (S / 5 * 5)).1)
      ((diffImage (P.resize pre (S / 5 * 5, S / 5 * 5))
            (P.resize post (S / 5 * 5, S / 5 * 5))).map
        (fun row => row.map (fun z => (z : ℚ))))
      (find_vector_set
        ((diffImage (P.resize pre (S / 5 * 5, S / 5 * 5))
              (P.resize post (S / 5 * 5, S / 5 * 5))).map
          (fun row => row.map (fun z => (z : ℚ))))
        (S / 5 * 5) (S / 5 * 5)).2
      (S / 5 * 5) (S / 5 * 5)) with hlabels
  have hlablen : labels.length = (S / 5 * 5 - 4) * (S / 5 * 5 - 4) := by
    rw [hlabels, hkm, find_FVS_length]
  set grid := listChunks labels (S / 5 * 5 - 4) (S / 5 * 5 - 4) with hgrid
  set cm := buildChangeMap li grid with hcm
  set clean := erode cm kernelK with hclean
  have hgl : grid.length = S / 5 * 5 - 4 := listChunks_length _ _ _
  have hgr : ∀ row ∈ grid, row.length = S / 5 * 5 - 4 :=
    listChunks_row_length _ _ _ hlablen
  have hcml : cm.length = S / 5 * 5 - 4 := by
    rw [hcm, buildChangeMap_length, hgl]
  have hcmr : ∀ row ∈ cm, row.length = S / 5 * 5 - 4 :=
    buildChangeMap_row_lengths _ _ _ hgr
  have hcmne : cm ≠ [] := by
    intro hnil
    rw [hnil] at hcml
    simp at hcml
    omega
  have hcleanl : clean.length = S / 5 * 5 - 4 := by
    rw [hclean, erode_length, hcml]
  have hcleanr : ∀ row ∈ clean, row.length = S / 5 * 5 - 4 := by
    intro row hrow
    rw [hclean] at hrow
    rw [erode_row_lengths cm kernelK row hrow, headD_row_length cm _ hcmne hcmr]
  have hcleanne : clean ≠ [] := by
    intro hnil
    rw [hnil] at hcleanl
    simp at hcleanl
    omega
  have hcleanh : (clean.headD []).length = S / 5 * 5 - 4 :=
    headD_row_length clean _ hcleanne hcleanr
  have hcleanv : ∀ row ∈ clean, ∀ v ∈ row, v = 0 ∨ v = 255 :=
    erode_vals cm kernelK (buildChangeMap_vals li grid)
  obtain ⟨M, hMok, hMl, hMr, hMe, hMv⟩ := canvasWrite_ok_even S (S / 5 * 5 - 4) clean
    hcleanl hcleanh (by omega) (by omega) heven
  refine ⟨M, ?_, hMl, hMr, hMv hcleanv, ?_⟩
  · rw [← hMok]
  · intro r c hr hc hout
    rw [hMe r c hr hc, if_neg]
    intro hin
    omega

set_option maxRecDepth 40000 in
/-- C1 (counterexample): 21×21 inputs are square, same-shape and
non-degenerate (`S' = 20 ≥ 5`), yet the pipeline returns an error instead
of a mask: the margin `21 - 16 = 5` is odd, so the final slice has side 17
and the 16×16 cleaned map cannot be written into it. -/
theorem find_PCAKmeans_nondegenerate_crash_cex :
    find_PCAKmeans Pconc (zImg 21) (zImg 21) =
      .error (.valueError "could not broadcast input array") := by
  rfl

/-- C1 witness: the amended mask properties evaluated at 5×5 all-zero
inputs with the concrete primitive bundle. -/
theorem find_PCAKmeans_mask_props_witness :
    ((zImg 5).length = 5 ∧ 5 ≤ 5 ∧ (5 - (5 / 5 * 5 - 4)) % 2 = 0) ∧
      ∃ M, find_PCAKmeans Pconc (zImg 5) (zImg 5) = .ok M ∧ M.length = 5 ∧
        (∀ row ∈ M, row.length = 5) ∧
        (∀ row ∈ M, ∀ v ∈ row, v = 0 ∨ v = 255) ∧
        (∀ r c : Nat, r < 5 → c < 5 →
          (r < (5 - (5 / 5 * 5 - 4)) / 2 ∨
              (5 - (5 / 5 * 5 - 4)) / 2 + (5 / 5 * 5 - 4) ≤ r ∨
            c < (5 - (5 / 5 * 5 - 4)) / 2 ∨
              (5 - (5 / 5 * 5 - 4)) / 2 + (5 / 5 * 5 - 4) ≤ c) →
          getN M r c = 0) :=
  ⟨⟨by decide, by decide, by decide⟩,
    find_PCAKmeans_mask_props 5 Pconc (zImg 5) (zImg 5) (by decide) (by decide)
      (by decide) (by decide) (by decide) (by decide)
      (fun k vs => by simp [Pconc, kmZero])⟩

/-! ## C9: statelessness and determinism of the pipeline -/

/-- C9: threading the module state of `kmeans.py` (the global
`tile_counter`) through the pipeline shows that the result is independent
of the incoming state, the state is returned unchanged, and a second run
(receiving the state left by the first) produces an identical result: the
output is a function of the two input images and the (deterministic)
primitives alone. -/
theorem find_PCAKmeans_stateless (P : Primitives) (a b : List (List Int))
    (s s' : Nat) :
    (find_PCAKmeansSt P s a b).1 = (find_PCAKmeansSt P s' a b).1 ∧
      (find_PCAKmeansSt P s a b).2 = s ∧
      (find_PCAKmeansSt P ((find_PCAKmeansSt P s a b).2) a b).1 =
        (find_PCAKmeansSt P s a b).1 :=
  ⟨rfl, rfl, rfl⟩
